import Mathlib

/-!
Verification of the statistical core of `scripts/heic-decode.py`.

The Python dictionaries that back `HistogramCounter.bins` are modelled as
association lists with distinct keys (a Python `dict` maps each key to one
value; iteration order is insertion order).  Machine bytes are `Nat` values,
Python `int` arithmetic that can go negative is `Int`, and the exact real
arithmetic of the statistics (`/`, `**2`) is carried out in `ℚ`.  Python
exceptions (`ZeroDivisionError`, `IndexError`, `struct.error`, unbound local
names) make the embedded functions return `Option`, with `none` for any raise.
-/

/-- Dict assignment step shared by `add` and the merge loop: add `v` to the
slot of key `k` (a Python dict updates the existing slot in place), appending
a fresh `(k, v)` entry at the end when the key is absent, as dict insertion
does. -/
def bumpBy : List (Nat × Nat) → Nat → Nat → List (Nat × Nat)
  | [], k, v => [(k, v)]
  | (k0, c) :: rest, k, v =>
    if k0 = k then (k0, c + v) :: rest else (k0, c) :: bumpBy rest k v

/-- The `HistogramCounter` class: `self.bins` is a dict from sample value to
occurrence count. -/
structure HistogramCounter where
  bins : List (Nat × Nat)

/-- Method `add`: `self.bins[val] = 1 if val not in self.bins else
self.bins[val] + 1`, i.e. the dict slot for `val` grows by one (starting from
a fresh slot holding `1` when absent). -/
def HistogramCounter.add (h : HistogramCounter) (val : Nat) : HistogramCounter :=
  ⟨bumpBy h.bins val 1⟩

/-- The bins produced by method `append`: for every `(k, v)` of the argument's
dict, in order, `self.bins[k] = 0` when `k` is absent, then
`self.bins[k] += histogram_counter.bins[k]`; for a dict (one slot per key)
this adds `v` into the slot of `k`. -/
def happend_bins (l1 l2 : List (Nat × Nat)) : List (Nat × Nat) :=
  l2.foldl (fun acc p => bumpBy acc p.1 p.2) l1

/-- Method `append` (the merge operation) of `HistogramCounter`. -/
def HistogramCounter.append (h other : HistogramCounter) : HistogramCounter :=
  ⟨happend_bins h.bins other.bins⟩

/-- Bin-weighted sum `Σ count * f value` over the entries of a bins dict; the
loops of `get_mean` and `get_stddev` each compute two such sums. -/
def binsSum (f : Nat → ℚ) (l : List (Nat × Nat)) : ℚ :=
  (l.map (fun p => (p.2 : ℚ) * f p.1)).sum

/-- Method `get_mean`: `s = Σ number * val`, `number_sum = Σ number` over the
bins, and `mean = s / number_sum`; Python raises `ZeroDivisionError` when
`number_sum == 0`, modelled by `none`. -/
def HistogramCounter.get_mean (h : HistogramCounter) : Option ℚ :=
  let s := binsSum (fun val => (val : ℚ)) h.bins
  let number_sum := binsSum (fun _ => 1) h.bins
  if number_sum = 0 then none else some (s / number_sum)

/-- Method `get_stddev`, up to the final `math.sqrt`: after `mean =
self.get_mean()` (propagating its `ZeroDivisionError`), the second pass
computes `t = Σ number * (val - mean) ** 2` and `number_sum = Σ number`, and
the method returns `math.sqrt (t / number_sum)`.  This definition returns the
radicand `t / number_sum`; the source's return value is its square root. -/
def HistogramCounter.get_stddev_radicand (h : HistogramCounter) : Option ℚ :=
  match h.get_mean with
  | none => none
  | some mean =>
    let t := binsSum (fun val => ((val : ℚ) - mean) ^ 2) h.bins
    let number_sum := binsSum (fun _ => 1) h.bins
    some (t / number_sum)

/-- Accumulator obtained from `HistogramCounter()` followed by one `add` call
per element of `l`, in order. -/
def hfromList (l : List Nat) : HistogramCounter :=
  l.foldl HistogramCounter.add ⟨[]⟩

/-- The count a bins dict holds for value `x` (`0` when absent).  For the
distinct-key lists produced by `add`/`append` this is the dict lookup. -/
def binsCount (l : List (Nat × Nat)) (x : Nat) : Nat :=
  (l.map (fun p => if p.1 = x then p.2 else 0)).sum

/-- A way to combine per-unit accumulators: each leaf is an accumulator built
by a sequence of `add` calls, each node merges two intermediate results with
`append`.  This captures every order and grouping in which sub-accumulators
can be merged. -/
inductive MergeTree where
  | leaf : List Nat → MergeTree
  | node : MergeTree → MergeTree → MergeTree

/-- The accumulator a merge tree evaluates to. -/
def MergeTree.merged : MergeTree → HistogramCounter
  | .leaf l => hfromList l
  | .node t1 t2 => (MergeTree.merged t1).append (MergeTree.merged t2)

/-- The raw sample sequence underlying a merge tree, leaf lists concatenated
left to right. -/
def MergeTree.samples : MergeTree → List Nat
  | .leaf l => l
  | .node t1 t2 => t1.samples ++ t2.samples

/-- Arithmetic mean of a raw sample sequence, stated from the spec for
comparison with `get_mean`. -/
def rawMean (l : List Nat) : ℚ :=
  (l.map (fun x : Nat => (x : ℚ))).sum / (l.length : ℚ)

/-- Population variance of a raw sample sequence, stated from the spec for
comparison with `get_stddev`; the population standard deviation is its square
root. -/
def rawVariance (l : List Nat) : ℚ :=
  (l.map (fun x : Nat => ((x : ℚ) - rawMean l) ^ 2)).sum / (l.length : ℚ)

/-- The scan loop of `analyze_rgba_file`: while `i < len(contents)` take four
consecutive bytes as one R, G, B, A group.  When one to three bytes remain the
loop body indexes past the end of `contents` and Python raises `IndexError`
(modelled by `none`). -/
def rgbaLoop : List Nat →
    HistogramCounter × HistogramCounter × HistogramCounter × HistogramCounter →
    Option (HistogramCounter × HistogramCounter × HistogramCounter × HistogramCounter)
  | [], accs => some accs
  | r :: g :: b :: a :: rest, accs =>
    rgbaLoop rest (accs.1.add r, accs.2.1.add g, accs.2.2.1.add b, accs.2.2.2.add a)
  | _ :: _, _ => none

/-- Function `analyze_rgba_file`: fresh R, G, B, A counters fed by the scan
loop.  The `width` and `height` parameters are accepted but never read,
exactly as in the source. -/
def analyze_rgba_file (contents : List Nat) (width height : Nat) :
    Option (HistogramCounter × HistogramCounter × HistogramCounter × HistogramCounter) :=
  rgbaLoop contents (⟨[]⟩, ⟨[]⟩, ⟨[]⟩, ⟨[]⟩)

/-- Big-endian 16-bit field, as `struct.unpack(">HH", ...)` reads each of its
two fields from two bytes. -/
def be16 (b0 b1 : Nat) : Nat := 256 * b0 + b1

/-- Big-endian 32-bit field, as `struct.unpack(">II", ...)` reads each of its
two fields from four bytes. -/
def be32 (b0 b1 b2 b3 : Nat) : Nat := 256 * (256 * (256 * b0 + b1) + b2) + b3

/-- Grid-descriptor parsing in `analyze_heic_file`:
`struct.unpack("BBBB", grid_contents[:4])` yields version, flags,
rows_minus_one, columns_minus_one (raising `struct.error` on fewer than four
bytes); `flags == 0` selects `">HH"` and `flags == 1` selects `">II"` for the
remaining bytes (which must then number exactly four resp. eight, else
`struct.error`); any other flags value leaves the format variable unbound and
the second unpack raises.  Every raise is `none`. -/
def parse_grid : List Nat → Option (Nat × Nat × Nat × Nat × Nat × Nat)
  | version :: flags :: rows_minus_one :: columns_minus_one :: rest =>
    if flags = 0 then
      match rest with
      | [w0, w1, h0, h1] =>
        some (version, flags, rows_minus_one, columns_minus_one, be16 w0 w1, be16 h0 h1)
      | _ => none
    else if flags = 1 then
      match rest with
      | [w0, w1, w2, w3, h0, h1, h2, h3] =>
        some (version, flags, rows_minus_one, columns_minus_one,
          be32 w0 w1 w2 w3, be32 h0 h1 h2 h3)
      | _ => none
    else none
  | _ => none

/-- Closure `is_last_column` of `analyze_heic_file`. -/
def is_last_column (tile_id columns_minus_one : Nat) : Bool :=
  tile_id % (columns_minus_one + 1) == columns_minus_one

/-- Closure `is_last_row` of `analyze_heic_file`. -/
def is_last_row (tile_id columns_minus_one rows_minus_one : Nat) : Bool :=
  decide ((columns_minus_one + 1) * rows_minus_one ≤ tile_id)

/-- Closure `is_last_tile` of `analyze_heic_file`: the disjunction of
`is_last_column` and `is_last_row` as written in the source. -/
def is_last_tile (tile_id columns_minus_one rows_minus_one : Nat) : Bool :=
  is_last_column tile_id columns_minus_one ||
    is_last_row tile_id columns_minus_one rows_minus_one

/-- Local `width_last_column` of `analyze_heic_file`:
`width + output_width - width * (columns_minus_one + 1)`, plain Python `int`
arithmetic that can go negative. -/
def width_last_column (width output_width columns_minus_one : Nat) : Int :=
  (width : Int) + (output_width : Int) - (width : Int) * ((columns_minus_one : Int) + 1)

/-- Local `height_last_column` of `analyze_heic_file` (the remainder height,
using `rows_minus_one`). -/
def height_last_column (height output_height rows_minus_one : Nat) : Int :=
  (height : Int) + (output_height : Int) - (height : Int) * ((rows_minus_one : Int) + 1)

/-- The crop chosen for one tile by `analyze_heic_file` when a grid is
present: the `if is_last_tile / elif is_last_column / elif is_last_row`
cascade; `none` is an empty `crop_filter` (tile used unmodified), `some (w, h)`
is `-vf crop=w:h:x=0:y=0`. -/
def crop_plan (tile_id columns_minus_one rows_minus_one width height
    output_width output_height : Nat) : Option (Int × Int) :=
  if is_last_tile tile_id columns_minus_one rows_minus_one then
    some (width_last_column width output_width columns_minus_one,
      height_last_column height output_height rows_minus_one)
  else if is_last_column tile_id columns_minus_one then
    some (width_last_column width output_width columns_minus_one, (height : Int))
  else if is_last_row tile_id columns_minus_one rows_minus_one then
    some ((width : Int), height_last_column height output_height rows_minus_one)
  else none

/-- The tile loop of `analyze_heic_file`: `tile_id` starts at `-1` and is
incremented at the top of the loop body for every item of `item_list`
(regardless of its type), and only items whose type is `"hvc1"` are analyzed.
The result lists the `(tile_id, item_id)` pairs actually analyzed, in loop
order. -/
def tiles_aux : List (String × String) → Nat → List (Nat × String)
  | [], _ => []
  | (item_id, item_type) :: rest, tile_id =>
    if item_type = "hvc1" then (tile_id, item_id) :: tiles_aux rest (tile_id + 1)
    else tiles_aux rest (tile_id + 1)

/-- The `(tile_id, item_id)` pairs `analyze_heic_file` analyzes for a given
item list. -/
def analyzed_tiles (item_list : List (String × String)) : List (Nat × String) :=
  tiles_aux item_list 0

/-- Membership test `k not in d` on a bins dict. -/
def dictMem (l : List (Nat × Nat)) (k : Nat) : Bool :=
  l.any (fun p => p.1 == k)

/-- Dict assignment `d[k] = v`: overwrite the slot of `k` in place, appending
a fresh entry when `k` is absent. -/
def dictSet : List (Nat × Nat) → Nat → Nat → List (Nat × Nat)
  | [], k, v => [(k, v)]
  | (k0, c) :: rest, k, v =>
    if k0 = k then (k0, v) :: rest else (k0, c) :: dictSet rest k v

/-- Dict read `d[k]` (first slot of `k`; every read in `append` is of a
present key, so the default for an absent key is never observed). -/
def dictGet : List (Nat × Nat) → Nat → Nat
  | [], _ => 0
  | (k0, c) :: rest, k => if k0 = k then c else dictGet rest k

/-- Heap of `HistogramCounter` objects for the mutation analysis of `append`:
each `Nat` handle names one object's `bins` dict. -/
def updStore (σ : Nat → List (Nat × Nat)) (h : Nat) (l : List (Nat × Nat)) :
    Nat → List (Nat × Nat) :=
  fun x => if x = h then l else σ x

/-- One iteration of the `append` loop body on the heap, `self` at handle `a`
and the argument `histogram_counter` at handle `b`, statement by statement:
`if k not in self.bins: self.bins[k] = 0`, then
`self.bins[k] += histogram_counter.bins[k]`. -/
def append_step (a b k : Nat) (σ : Nat → List (Nat × Nat)) : Nat → List (Nat × Nat) :=
  let σ1 := if dictMem (σ a) k then σ else updStore σ a (dictSet (σ a) k 0)
  updStore σ1 a (dictSet (σ1 a) k (dictGet (σ1 a) k + dictGet (σ1 b) k))

/-- The whole loop of `append` on the heap, one `append_step` per `(k, v)`
yielded by `histogram_counter.bins.items()`.  The item sequence is passed
explicitly; for `a ≠ b` the argument's dict is never written during the loop,
so the live iteration of the source agrees with this snapshot. -/
def append_loop (a b : Nat) :
    List (Nat × Nat) → (Nat → List (Nat × Nat)) → Nat → List (Nat × Nat)
  | [], σ => σ
  | (k, _) :: rest, σ => append_loop a b rest (append_step a b k σ)

/-- The call `σ[a].append(σ[b])` as a heap transformer. -/
def append_op (σ : Nat → List (Nat × Nat)) (a b : Nat) : Nat → List (Nat × Nat) :=
  append_loop a b (σ b) σ

/-- A concrete two-object heap used to instantiate the mutation theorem. -/
def testStore : Nat → List (Nat × Nat) :=
  fun x => if x = 0 then [(1, 2)] else if x = 1 then [(3, 4), (1, 5)] else []

/-! Auxiliary lemmas. -/

theorem binsSum_nil (f : Nat → ℚ) : binsSum f [] = 0 := rfl

theorem binsSum_cons (f : Nat → ℚ) (k c : Nat) (rest : List (Nat × Nat)) :
    binsSum f ((k, c) :: rest) = (c : ℚ) * f k + binsSum f rest := by
  simp [binsSum]

theorem binsSum_bumpBy (f : Nat → ℚ) :
    ∀ (l : List (Nat × Nat)) (k v : Nat),
      binsSum f (bumpBy l k v) = binsSum f l + (v : ℚ) * f k := by
  intro l
  induction l with
  | nil =>
    intro k v
    simp [bumpBy, binsSum]
  | cons p rest ih =>
    intro k v
    obtain ⟨k0, c⟩ := p
    by_cases h : k0 = k
    · subst h
      have hb : bumpBy ((k0, c) :: rest) k0 v = (k0, c + v) :: rest := by
        simp [bumpBy]
      rw [hb, binsSum_cons, binsSum_cons]
      push_cast
      ring
    · have hb : bumpBy ((k0, c) :: rest) k v = (k0, c) :: bumpBy rest k v := by
        simp [bumpBy, h]
      rw [hb, binsSum_cons, binsSum_cons, ih]
      ring

theorem binsSum_add_sample (f : Nat → ℚ) (h : HistogramCounter) (v : Nat) :
    binsSum f (h.add v).bins = binsSum f h.bins + f v := by
  simp [HistogramCounter.add, binsSum_bumpBy]

theorem binsSum_foldl_add (f : Nat → ℚ) :
    ∀ (s : List Nat) (h : HistogramCounter),
      binsSum f ((s.foldl HistogramCounter.add h).bins) =
        binsSum f h.bins + (s.map f).sum := by
  intro s
  induction s with
  | nil => intro h; simp
  | cons a s ih =>
    intro h
    simp only [List.foldl_cons, List.map_cons, List.sum_cons, ih (h.add a),
      binsSum_add_sample]
    ring

theorem binsSum_happend (f : Nat → ℚ) :
    ∀ (l2 l1 : List (Nat × Nat)),
      binsSum f (happend_bins l1 l2) = binsSum f l1 + binsSum f l2 := by
  intro l2
  induction l2 with
  | nil => intro l1; simp [happend_bins, binsSum]
  | cons p rest ih =>
    intro l1
    obtain ⟨k, c⟩ := p
    show binsSum f (happend_bins (bumpBy l1 k c) rest) = _
    rw [ih, binsSum_bumpBy, binsSum_cons]
    ring

theorem binsSum_merged (f : Nat → ℚ) :
    ∀ t : MergeTree, binsSum f (t.merged).bins = (t.samples.map f).sum := by
  intro t
  induction t with
  | leaf l =>
    have := binsSum_foldl_add f l ⟨[]⟩
    simpa [MergeTree.merged, MergeTree.samples, hfromList, binsSum] using this
  | node t1 t2 ih1 ih2 =>
    simp [MergeTree.merged, MergeTree.samples, HistogramCounter.append,
      binsSum_happend, ih1, ih2]

theorem binsCount_bumpBy :
    ∀ (l : List (Nat × Nat)) (k v x : Nat),
      binsCount (bumpBy l k v) x = binsCount l x + if k = x then v else 0 := by
  intro l
  induction l with
  | nil =>
    intro k v x
    simp [bumpBy, binsCount]
  | cons p rest ih =>
    intro k v x
    obtain ⟨k0, c⟩ := p
    by_cases h : k0 = k
    · subst h
      have hb : bumpBy ((k0, c) :: rest) k0 v = (k0, c + v) :: rest := by
        simp [bumpBy]
      rw [hb]
      simp only [binsCount, List.map_cons, List.sum_cons]
      by_cases hx : k0 = x
      · simp only [if_pos hx]
        omega
      · simp only [if_neg hx]
        omega
    · have hb : bumpBy ((k0, c) :: rest) k v = (k0, c) :: bumpBy rest k v := by
        simp [bumpBy, h]
      rw [hb]
      simp only [binsCount, List.map_cons, List.sum_cons]
      have := ih k v x
      simp only [binsCount] at this
      omega

theorem binsCount_add_sample (h : HistogramCounter) (v x : Nat) :
    binsCount (h.add v).bins x = binsCount h.bins x + if v = x then 1 else 0 := by
  simp [HistogramCounter.add, binsCount_bumpBy]

theorem binsCount_foldl_add :
    ∀ (s : List Nat) (h : HistogramCounter) (x : Nat),
      binsCount ((s.foldl HistogramCounter.add h).bins) x =
        binsCount h.bins x + s.count x := by
  intro s
  induction s with
  | nil => intro h x; simp
  | cons a s ih =>
    intro h x
    simp only [List.foldl_cons, ih (h.add a), binsCount_add_sample]
    have hc : (a :: s).count x = s.count x + if a = x then 1 else 0 := by
      by_cases hax : a = x
      · subst hax; simp [List.count_cons]
      · simp [List.count_cons, hax, Ne.symm hax]
    omega

theorem binsCount_happend :
    ∀ (l2 l1 : List (Nat × Nat)) (x : Nat),
      binsCount (happend_bins l1 l2) x = binsCount l1 x + binsCount l2 x := by
  intro l2
  induction l2 with
  | nil => intro l1 x; simp [happend_bins, binsCount]
  | cons p rest ih =>
    intro l1 x
    obtain ⟨k, c⟩ := p
    show binsCount (happend_bins (bumpBy l1 k c) rest) x = _
    rw [ih, binsCount_bumpBy]
    simp only [binsCount, List.map_cons, List.sum_cons]
    by_cases hx : k = x
    · simp only [if_pos hx]
      omega
    · simp only [if_neg hx]
      omega

theorem binsCount_merged :
    ∀ (t : MergeTree) (x : Nat),
      binsCount (t.merged).bins x = t.samples.count x := by
  intro t
  induction t with
  | leaf l =>
    intro x
    have := binsCount_foldl_add l ⟨[]⟩ x
    simpa [MergeTree.merged, MergeTree.samples, hfromList, binsCount] using this
  | node t1 t2 ih1 ih2 =>
    intro x
    simp [MergeTree.merged, MergeTree.samples, HistogramCounter.append,
      binsCount_happend, ih1, ih2, List.count_append]

theorem sum_map_one (l : List Nat) : (l.map (fun _ => (1 : ℚ))).sum = l.length := by
  induction l with
  | nil => simp
  | cons a l ih => simp [ih]; ring

theorem get_mean_merged (t : MergeTree) :
    (t.merged).get_mean =
      if t.samples = [] then none else some (rawMean t.samples) := by
  have hnum : binsSum (fun _ => 1) (t.merged).bins = (t.samples.length : ℚ) := by
    rw [binsSum_merged, sum_map_one]
  have hs : binsSum (fun val => (val : ℚ)) (t.merged).bins =
      (t.samples.map (fun x : Nat => (x : ℚ))).sum := binsSum_merged _ t
  by_cases hnil : t.samples = []
  · simp [HistogramCounter.get_mean, hnum, hnil]
  · have hlen : (t.samples.length : ℚ) ≠ 0 := by
      simpa using List.length_eq_zero.not.mpr hnil
    simp [HistogramCounter.get_mean, hnum, hs, hnil, hlen, rawMean]

theorem get_stddev_radicand_merged (t : MergeTree) :
    (t.merged).get_stddev_radicand =
      if t.samples = [] then none else some (rawVariance t.samples) := by
  by_cases hnil : t.samples = []
  · simp [HistogramCounter.get_stddev_radicand, get_mean_merged, hnil]
  · have hnum : binsSum (fun _ => 1) (t.merged).bins = (t.samples.length : ℚ) := by
      rw [binsSum_merged, sum_map_one]
    have ht : binsSum (fun val => ((val : ℚ) - rawMean t.samples) ^ 2) (t.merged).bins =
        (t.samples.map (fun x : Nat => ((x : ℚ) - rawMean t.samples) ^ 2)).sum :=
      binsSum_merged _ t
    simp [HistogramCounter.get_stddev_radicand, get_mean_merged, hnil, ht, hnum,
      rawVariance]

theorem tiles_aux_enumFrom :
    ∀ (l : List (String × String)) (n : Nat),
      tiles_aux l n = (l.enumFrom n).filterMap
        (fun p => if p.2.2 = "hvc1" then some (p.1, p.2.1) else none) := by
  intro l
  induction l with
  | nil => intro n; simp [tiles_aux, List.enumFrom]
  | cons p rest ih =>
    intro n
    obtain ⟨item_id, item_type⟩ := p
    by_cases h : item_type = "hvc1"
    · simp [tiles_aux, List.enumFrom, List.filterMap_cons, h, ih]
    · simp [tiles_aux, List.enumFrom, List.filterMap_cons, h, ih]

theorem rgbaLoop_none_iff :
    ∀ (n : Nat) (l : List Nat), l.length ≤ n →
      ∀ accs, (rgbaLoop l accs = none ↔ l.length % 4 ≠ 0) := by
  intro n
  induction n with
  | zero =>
    intro l hl accs
    have : l = [] := List.length_eq_zero.mp (Nat.le_zero.mp hl)
    subst this
    simp [rgbaLoop]
  | succ n ih =>
    intro l hl accs
    match l with
    | [] => simp [rgbaLoop]
    | [a] =>
      have h1 : ([a] : List Nat).length % 4 = 1 := rfl
      constructor
      · intro _; omega
      · intro _; rfl
    | [a, b] =>
      have h2 : ([a, b] : List Nat).length % 4 = 2 := rfl
      constructor
      · intro _; omega
      · intro _; rfl
    | [a, b, c] =>
      have h3 : ([a, b, c] : List Nat).length % 4 = 3 := rfl
      constructor
      · intro _; omega
      · intro _; rfl
    | a :: b :: c :: d :: rest =>
      have hstep : rgbaLoop (a :: b :: c :: d :: rest) accs =
          rgbaLoop rest (accs.1.add a, accs.2.1.add b, accs.2.2.1.add c, accs.2.2.2.add d) :=
        rfl
      have hlen : rest.length ≤ n := by
        simp only [List.length_cons] at hl
        omega
      have hmod : (a :: b :: c :: d :: rest).length % 4 = rest.length % 4 := by
        simp only [List.length_cons]
        omega
      rw [hstep, hmod]
      exact ih rest hlen _

/-- C1: for the grid descriptor `rows_minus_one = 1`, `columns_minus_one = 1`,
output 300 x 300, with native 200 x 200 tiles, the source's crop cascade
leaves tile 0 unmodified but crops tiles 1, 2 and 3 all to `(100, 100)`:
because `is_last_tile` is the disjunction of `is_last_column` and
`is_last_row`, the `elif` branches that would produce `(100, 200)` for tile 1
and `(200, 100)` for tile 2 are unreachable, contradicting the claimed crop
policy. -/
theorem c1_crop_policy :
    crop_plan 0 1 1 200 200 300 300 = none
    ∧ crop_plan 1 1 1 200 200 300 300 = some (100, 100)
    ∧ crop_plan 2 1 1 200 200 300 300 = some (100, 100)
    ∧ crop_plan 3 1 1 200 200 300 300 = some (100, 100) := by
  decide

/-- C2 counterexample: for the item list `[("1", "grid"), ("2", "hvc1")]` the
single grid-tile item is analyzed with `tile_id = 1`, its position in the full
item list, not `0`, its position among the grid-tile items, refuting the
claimed indexing. -/
theorem c2_counterexample :
    analyzed_tiles [("1", "grid"), ("2", "hvc1")] = [(1, "2")]
    ∧ analyzed_tiles [("1", "grid"), ("2", "hvc1")] ≠ [(0, "2")] := by
  constructor
  · rfl
  · decide

/-- C2 amended: exactly the items of type `"hvc1"` are analyzed, in declared
order without reordering or deduplication, and each is analyzed with
`tile_id` equal to its 0-based position in the FULL item list (the counter
advances on every item, whatever its type), not its position within the
subsequence of grid-tile items. -/
theorem c2_tile_index (item_list : List (String × String)) :
    analyzed_tiles item_list = item_list.enum.filterMap
      (fun p => if p.2.2 = "hvc1" then some (p.1, p.2.1) else none) := by
  have h := tiles_aux_enumFrom item_list 0
  simpa [analyzed_tiles, List.enum] using h

/-- C3: for an accumulator built from any sequence of `add` calls distributed
over sub-accumulators and merges, `get_mean` returns exactly the arithmetic
mean of the raw sample sequence (the bin-weighted sum divided by the total
count), and it fails with `ZeroDivisionError` precisely when no sample was
ever added. -/
theorem c3_mean (t : MergeTree) :
    (t.merged).get_mean =
      if t.samples = [] then none else some (rawMean t.samples) :=
  get_mean_merged t

/-- C4: merging is order- and grouping-independent: an accumulator assembled
by any tree of `append` merges over any partition of a sample sequence has
the same bins (key by key), the same mean and the same standard deviation
(radicand) as a single accumulator that received every sample directly. -/
theorem c4_merge_any_order (t : MergeTree) (s : List Nat)
    (hperm : t.samples.Perm s) :
    (∀ x, binsCount (t.merged).bins x = binsCount (hfromList s).bins x)
    ∧ (t.merged).get_mean = (hfromList s).get_mean
    ∧ (t.merged).get_stddev_radicand = (hfromList s).get_stddev_radicand := by
  have hleaf : hfromList s = (MergeTree.leaf s).merged := rfl
  have hnil : t.samples = [] ↔ s = [] := by
    rw [← List.length_eq_zero, ← List.length_eq_zero, hperm.length_eq]
  have hlen : t.samples.length = s.length := hperm.length_eq
  have hmean : rawMean t.samples = rawMean s := by
    unfold rawMean
    rw [hlen, (hperm.map (fun x : Nat => (x : ℚ))).sum_eq]
  refine ⟨?_, ?_, ?_⟩
  · intro x
    rw [binsCount_merged, hleaf, binsCount_merged]
    exact hperm.count_eq x
  · rw [get_mean_merged, hleaf, get_mean_merged]
    simp only [MergeTree.samples]
    by_cases h : s = []
    · simp [h, hnil.mpr h]
    · have h1 : ¬t.samples = [] := fun hh => h (hnil.mp hh)
      simp [h, h1, hmean]
  · rw [get_stddev_radicand_merged, hleaf, get_stddev_radicand_merged]
    simp only [MergeTree.samples]
    by_cases h : s = []
    · simp [h, hnil.mpr h]
    · have h1 : ¬t.samples = [] := fun hh => h (hnil.mp hh)
      have hvar : rawVariance t.samples = rawVariance s := by
        unfold rawVariance
        rw [hlen, hmean, (hperm.map (fun x : Nat => ((x : ℚ) - rawMean s) ^ 2)).sum_eq]
      simp [h, h1, hvar]

/-- C4 witness: merging the partition `[3]`, `[5, 3]` through one `append`
matches the accumulator fed the raw sequence `[3, 5, 3]` directly. -/
theorem c4_merge_any_order_witness :
    ((MergeTree.node (MergeTree.leaf [3]) (MergeTree.leaf [5, 3])).samples).Perm [3, 5, 3]
    ∧ ((∀ x, binsCount ((MergeTree.node (MergeTree.leaf [3]) (MergeTree.leaf [5, 3])).merged).bins x
          = binsCount (hfromList [3, 5, 3]).bins x)
      ∧ ((MergeTree.node (MergeTree.leaf [3]) (MergeTree.leaf [5, 3])).merged).get_mean
          = (hfromList [3, 5, 3]).get_mean
      ∧ ((MergeTree.node (MergeTree.leaf [3]) (MergeTree.leaf [5, 3])).merged).get_stddev_radicand
          = (hfromList [3, 5, 3]).get_stddev_radicand) :=
  ⟨List.Perm.refl _,
    c4_merge_any_order (MergeTree.node (MergeTree.leaf [3]) (MergeTree.leaf [5, 3]))
      [3, 5, 3] (List.Perm.refl _)⟩

/-- C5: for a nonempty sequence of `add` calls the radicand that `get_stddev`
passes to `math.sqrt` — computed in a second pass over the bins with the
already-computed mean — equals the population variance of the raw sample
sequence, so the returned standard deviation is the population standard
deviation. -/
theorem c5_stddev (l : List Nat) (h : l ≠ []) :
    (hfromList l).get_stddev_radicand = some (rawVariance l) := by
  have := get_stddev_radicand_merged (MergeTree.leaf l)
  simpa [MergeTree.merged, MergeTree.samples, h] using this

/-- C5 witness at the sample sequence `[0, 2]`. -/
theorem c5_stddev_witness :
    ([0, 2] : List Nat) ≠ []
    ∧ (hfromList [0, 2]).get_stddev_radicand = some (rawVariance [0, 2]) :=
  ⟨by decide, c5_stddev [0, 2] (by decide)⟩

/-- C6 counterexample: an RGBA buffer of 8 bytes analyzed for a 1 x 1 region
(expected size `4 * 1 * 1 = 4`) is processed without any failure: the length
check claimed by the spec does not exist, the scan only consumes the buffer
in groups of four. -/
theorem c6_counterexample :
    (analyze_rgba_file (List.replicate 8 0) 1 1).isSome = true
    ∧ (8 : Nat) ≠ 4 * 1 * 1 := by
  constructor
  · rfl
  · decide

/-- C6 amended: `analyze_rgba_file` ignores its `width`/`height` parameters
entirely; it fails (with `IndexError`, partway through the scan) exactly when
the buffer length is not a multiple of 4, and processes any multiple-of-four
buffer in full — including ones whose length differs from
`4 * width * height`. -/
theorem c6_malformed (contents : List Nat) (width height : Nat) :
    analyze_rgba_file contents width height = none ↔ contents.length % 4 ≠ 0 :=
  rgbaLoop_none_iff contents.length contents le_rfl _

/-- C6 amended-theorem witness at a 3-byte buffer. -/
theorem c6_malformed_witness :
    analyze_rgba_file [0, 0, 0] 1 1 = none ↔ ([0, 0, 0] : List Nat).length % 4 ≠ 0 :=
  c6_malformed [0, 0, 0] 1 1

/-- C7: grid parsing keys the dimension field width on the flags byte:
flags 0 reads `output_width` and `output_height` as 16-bit big-endian fields,
flags 1 reads them as 32-bit big-endian fields, and any flags value of 2 or
more makes the parse fail. -/
theorem c7_grid_flags :
    (∀ version rows_minus_one columns_minus_one w0 w1 h0 h1 : Nat,
      parse_grid [version, 0, rows_minus_one, columns_minus_one, w0, w1, h0, h1]
        = some (version, 0, rows_minus_one, columns_minus_one, be16 w0 w1, be16 h0 h1))
    ∧ (∀ version rows_minus_one columns_minus_one b0 b1 b2 b3 b4 b5 b6 b7 : Nat,
      parse_grid [version, 1, rows_minus_one, columns_minus_one,
          b0, b1, b2, b3, b4, b5, b6, b7]
        = some (version, 1, rows_minus_one, columns_minus_one,
            be32 b0 b1 b2 b3, be32 b4 b5 b6 b7))
    ∧ (∀ (version flags rows_minus_one columns_minus_one : Nat) (rest : List Nat),
      2 ≤ flags →
        parse_grid (version :: flags :: rows_minus_one :: columns_minus_one :: rest)
          = none) := by
  refine ⟨fun _ _ _ _ _ _ _ => rfl, fun _ _ _ _ _ _ _ _ _ _ _ => rfl, ?_⟩
  intro version flags rows_minus_one columns_minus_one rest hflags
  have h0 : flags ≠ 0 := by omega
  have h1 : flags ≠ 1 := by omega
  simp [parse_grid, h0, h1]

/-- C7 witness: a descriptor whose flags byte is 2 fails to parse. -/
theorem c7_grid_flags_witness :
    parse_grid [0, 2, 1, 1, 0, 100, 0, 100] = none :=
  c7_grid_flags.2.2 0 2 1 1 [0, 100, 0, 100] (by decide)

/-- C8 counterexample: with 200 x 200 tiles and a 100 x 100 output canvas in
a 2 x 2 grid, the remainder width computes to `-100 ≤ 0`, yet the planner
produces the crop rectangle `(-100, -100)` for tile 3 instead of failing:
no `InvalidGridGeometry` check exists in the source. -/
theorem c8_counterexample :
    crop_plan 3 1 1 200 200 100 100 = some (-100, -100)
    ∧ width_last_column 200 100 1 ≤ 0 := by
  decide

/-- C8 amended: crop planning performs no geometry validation: for every
last-row-or-last-column tile whose remainder width or height is non-positive
or exceeds the tile's native dimension, it still emits the crop rectangle
built from those out-of-range remainders rather than failing. -/
theorem c8_no_geometry_check (tile_id columns_minus_one rows_minus_one
    width height output_width output_height : Nat)
    (hedge : is_last_tile tile_id columns_minus_one rows_minus_one = true)
    (hbad : width_last_column width output_width columns_minus_one ≤ 0
      ∨ (width : Int) < width_last_column width output_width columns_minus_one
      ∨ height_last_column height output_height rows_minus_one ≤ 0
      ∨ (height : Int) < height_last_column height output_height rows_minus_one) :
    crop_plan tile_id columns_minus_one rows_minus_one width height
        output_width output_height
      = some (width_last_column width output_width columns_minus_one,
          height_last_column height output_height rows_minus_one) := by
  simp [crop_plan, hedge]

/-- C8 amended-theorem witness at tile 3 of the degenerate grid above. -/
theorem c8_no_geometry_check_witness :
    crop_plan 3 1 1 200 200 100 100
      = some (width_last_column 200 100 1, height_last_column 200 100 1) :=
  c8_no_geometry_check 3 1 1 200 200 100 100 (by decide) (Or.inl (by decide))

theorem rgbaLoop_replicate (v : Nat) :
    ∀ (n : Nat) (R G B A : HistogramCounter),
      rgbaLoop (List.replicate (4 * n) v) (R, G, B, A) =
        some ((List.replicate n v).foldl HistogramCounter.add R,
          (List.replicate n v).foldl HistogramCounter.add G,
          (List.replicate n v).foldl HistogramCounter.add B,
          (List.replicate n v).foldl HistogramCounter.add A) := by
  intro n
  induction n with
  | zero => intro R G B A; rfl
  | succ n ih =>
    intro R G B A
    have h4 : 4 * (n + 1) = 4 + 4 * n := by ring
    rw [h4, List.replicate_add]
    have hrep : List.replicate 4 v = [v, v, v, v] := rfl
    rw [hrep]
    simp only [List.cons_append, List.nil_append]
    have hstep : rgbaLoop (v :: v :: v :: v :: List.replicate (4 * n) v) (R, G, B, A)
        = rgbaLoop (List.replicate (4 * n) v) (R.add v, G.add v, B.add v, A.add v) := rfl
    rw [hstep, ih]
    have hfold : ∀ H : HistogramCounter,
        (List.replicate (n + 1) v).foldl HistogramCounter.add H
          = (List.replicate n v).foldl HistogramCounter.add (H.add v) := by
      intro H
      rw [List.replicate_succ, List.foldl_cons]
    rw [hfold, hfold, hfold, hfold]

theorem rawMean_replicate (n v : Nat) (hn : n ≠ 0) :
    rawMean (List.replicate n v) = (v : ℚ) := by
  unfold rawMean
  rw [List.map_replicate, List.sum_replicate, List.length_replicate, nsmul_eq_mul]
  have hq : (n : ℚ) ≠ 0 := Nat.cast_ne_zero.mpr hn
  field_simp

theorem rawVariance_replicate (n v : Nat) (hn : n ≠ 0) :
    rawVariance (List.replicate n v) = 0 := by
  unfold rawVariance
  rw [rawMean_replicate n v hn, List.map_replicate]
  simp

theorem hfromList_get_mean (l : List Nat) :
    (hfromList l).get_mean = if l = [] then none else some (rawMean l) :=
  get_mean_merged (MergeTree.leaf l)

theorem hfromList_get_stddev_radicand (l : List Nat) :
    (hfromList l).get_stddev_radicand =
      if l = [] then none else some (rawVariance l) :=
  get_stddev_radicand_merged (MergeTree.leaf l)

/-- C9: an interleaved RGBA buffer of exactly `4 * w * h` bytes, all equal to
`v`, analyzed over a `w x h` region, feeds `w * h` copies of `v` to each of
the four channel accumulators (bytes `4k+0..3` go to R, G, B, A), so every
channel reports mean `v` and a standard deviation radicand of `0` (standard
deviation `0`). -/
theorem c9_constant_buffer (v w h : Nat) (hv : v ≤ 255) (hw : 0 < w) (hh : 0 < h) :
    ∃ Hc : HistogramCounter,
      analyze_rgba_file (List.replicate (4 * (w * h)) v) w h = some (Hc, Hc, Hc, Hc)
      ∧ Hc.get_mean = some ((v : ℚ))
      ∧ Hc.get_stddev_radicand = some 0 := by
  have hn : w * h ≠ 0 := (Nat.mul_pos hw hh).ne'
  have hne : List.replicate (w * h) v ≠ [] := by
    intro hcontr
    exact hn (by simpa using congrArg List.length hcontr)
  refine ⟨hfromList (List.replicate (w * h) v), ?_, ?_, ?_⟩
  · unfold analyze_rgba_file
    rw [rgbaLoop_replicate]
    rfl
  · rw [hfromList_get_mean, if_neg hne, rawMean_replicate (w * h) v hn]
  · rw [hfromList_get_stddev_radicand, if_neg hne, rawVariance_replicate (w * h) v hn]

/-- C9 witness: a four-byte buffer of constant value 7 for a 1 x 1 region. -/
theorem c9_constant_buffer_witness :
    (7 : Nat) ≤ 255 ∧ (0 : Nat) < 1 ∧
      ∃ Hc : HistogramCounter,
        analyze_rgba_file (List.replicate (4 * (1 * 1)) 7) 1 1 = some (Hc, Hc, Hc, Hc)
        ∧ Hc.get_mean = some ((7 : ℚ))
        ∧ Hc.get_stddev_radicand = some 0 :=
  ⟨by decide, by decide, c9_constant_buffer 7 1 1 (by decide) (by decide) (by decide)⟩

theorem dictGet_dictSet_self :
    ∀ (l : List (Nat × Nat)) (k v : Nat), dictGet (dictSet l k v) k = v := by
  intro l
  induction l with
  | nil => intro k v; simp [dictSet, dictGet]
  | cons p rest ih =>
    intro k v
    obtain ⟨k0, c⟩ := p
    by_cases h : k0 = k
    · simp [dictSet, dictGet, h]
    · simp [dictSet, dictGet, h, ih]

theorem dictSet_dictSet :
    ∀ (l : List (Nat × Nat)) (k v1 v2 : Nat),
      dictSet (dictSet l k v1) k v2 = dictSet l k v2 := by
  intro l
  induction l with
  | nil => intro k v1 v2; simp [dictSet]
  | cons p rest ih =>
    intro k v1 v2
    obtain ⟨k0, c⟩ := p
    by_cases h : k0 = k
    · simp [dictSet, h]
    · simp [dictSet, h, ih]

theorem dictSet_get_add :
    ∀ (l : List (Nat × Nat)) (k w : Nat), dictMem l k = true →
      dictSet l k (dictGet l k + w) = bumpBy l k w := by
  intro l
  induction l with
  | nil => intro k w hmem; simp [dictMem] at hmem
  | cons p rest ih =>
    intro k w hmem
    obtain ⟨k0, c⟩ := p
    by_cases h : k0 = k
    · simp [dictSet, dictGet, bumpBy, h]
    · have hrest : dictMem rest k = true := by
        simp [dictMem, List.any_cons, h] at hmem
        simpa [dictMem] using hmem
      simp [dictSet, dictGet, bumpBy, h, ih k w hrest]

theorem dictSet_absent :
    ∀ (l : List (Nat × Nat)) (k v : Nat), dictMem l k = false →
      dictSet l k v = l ++ [(k, v)] := by
  intro l
  induction l with
  | nil => intro k v _; rfl
  | cons p rest ih =>
    intro k v hmem
    obtain ⟨k0, c⟩ := p
    have h : k0 ≠ k := by
      intro hk
      simp [dictMem, List.any_cons, hk] at hmem
    have hrest : dictMem rest k = false := by
      simp [dictMem, List.any_cons, h] at hmem
      simpa [dictMem] using hmem
    simp [dictSet, h, ih k v hrest]

theorem bumpBy_absent :
    ∀ (l : List (Nat × Nat)) (k w : Nat), dictMem l k = false →
      bumpBy l k w = l ++ [(k, w)] := by
  intro l
  induction l with
  | nil => intro k w _; rfl
  | cons p rest ih =>
    intro k w hmem
    obtain ⟨k0, c⟩ := p
    have h : k0 ≠ k := by
      intro hk
      simp [dictMem, List.any_cons, hk] at hmem
    have hrest : dictMem rest k = false := by
      simp [dictMem, List.any_cons, h] at hmem
      simpa [dictMem] using hmem
    simp [bumpBy, h, ih k w hrest]

theorem append_step_frame (a b k : Nat) (σ : Nat → List (Nat × Nat)) (c : Nat)
    (hc : c ≠ a) : append_step a b k σ c = σ c := by
  unfold append_step
  by_cases hmem : dictMem (σ a) k = true
  · simp [hmem, updStore, hc]
  · simp [hmem, updStore, hc]

theorem append_step_receiver (a b k : Nat) (σ : Nat → List (Nat × Nat))
    (hab : a ≠ b) :
    append_step a b k σ a = bumpBy (σ a) k (dictGet (σ b) k) := by
  have hba : b ≠ a := Ne.symm hab
  by_cases hmem : dictMem (σ a) k = true
  · simp only [append_step, hmem, if_true, updStore, eq_self_iff_true]
    exact dictSet_get_add (σ a) k (dictGet (σ b) k) hmem
  · have hm : dictMem (σ a) k = false := by
      simpa using hmem
    simp only [append_step, hm, Bool.false_eq_true, if_false, updStore,
      eq_self_iff_true, if_true, hba]
    rw [dictGet_dictSet_self, dictSet_dictSet, Nat.zero_add,
      dictSet_absent (σ a) k (dictGet (σ b) k) hm,
      bumpBy_absent (σ a) k (dictGet (σ b) k) hm]

theorem append_loop_frame (a b : Nat) :
    ∀ (items : List (Nat × Nat)) (σ : Nat → List (Nat × Nat)) (c : Nat), c ≠ a →
      append_loop a b items σ c = σ c := by
  intro items
  induction items with
  | nil => intro σ c _; rfl
  | cons p rest ih =>
    intro σ c hc
    obtain ⟨k, v⟩ := p
    show append_loop a b rest (append_step a b k σ) c = σ c
    rw [ih (append_step a b k σ) c hc, append_step_frame a b k σ c hc]

theorem append_loop_receiver (a b : Nat) (hab : a ≠ b) :
    ∀ (items : List (Nat × Nat)) (σ : Nat → List (Nat × Nat)),
      append_loop a b items σ a =
        items.foldl (fun acc p => bumpBy acc p.1 (dictGet (σ b) p.1)) (σ a) := by
  intro items
  induction items with
  | nil => intro σ; rfl
  | cons p rest ih =>
    intro σ
    obtain ⟨k, v⟩ := p
    show append_loop a b rest (append_step a b k σ) a = _
    rw [ih (append_step a b k σ), List.foldl_cons,
      append_step_frame a b k σ b (Ne.symm hab), append_step_receiver a b k σ hab]

theorem nodup_dictGet :
    ∀ (L : List (Nat × Nat)), (L.map Prod.fst).Nodup →
      ∀ p ∈ L, dictGet L p.1 = p.2 := by
  intro L
  induction L with
  | nil => intro _ p hp; simp at hp
  | cons q rest ih =>
    intro hnd p hp
    obtain ⟨k0, c⟩ := q
    simp only [List.map_cons, List.nodup_cons] at hnd
    rcases List.mem_cons.mp hp with hp1 | hp2
    · subst hp1
      simp [dictGet]
    · have hne : k0 ≠ p.1 := by
        intro hk
        exact hnd.1 (hk ▸ List.mem_map_of_mem Prod.fst hp2)
      simp [dictGet, hne, ih hnd.2 p hp2]

theorem foldl_bump_congr (g : Nat × Nat → Nat) :
    ∀ (items : List (Nat × Nat)), (∀ p ∈ items, g p = p.2) →
      ∀ init : List (Nat × Nat),
        items.foldl (fun acc p => bumpBy acc p.1 (g p)) init
          = items.foldl (fun acc p => bumpBy acc p.1 p.2) init := by
  intro items
  induction items with
  | nil => intro _ init; rfl
  | cons p rest ih =>
    intro hg init
    rw [List.foldl_cons, List.foldl_cons, hg p (List.mem_cons_self p rest),
      ih (fun q hq => hg q (List.mem_cons_of_mem p hq))]

theorem append_op_receiver (σ : Nat → List (Nat × Nat)) (a b : Nat)
    (hab : a ≠ b) (hnodup : ((σ b).map Prod.fst).Nodup) :
    append_op σ a b a = happend_bins (σ a) (σ b) := by
  unfold append_op happend_bins
  rw [append_loop_receiver a b hab (σ b) σ]
  exact foldl_bump_congr (fun p => dictGet (σ b) p.1) (σ b)
    (fun p hp => nodup_dictGet (σ b) hnodup p hp) (σ a)

/-- C10: running `a.append(b)` on the heap mutates only the receiver `a`:
the argument `b`'s bins are untouched (as is every other object), the
receiver ends up holding exactly the pure merge of the two bin dicts, and the
same accumulator `b` can then be merged into a second receiver with the
identical effect it had on the first. -/
theorem c10_merge_frame (σ : Nat → List (Nat × Nat)) (a b : Nat) (hab : a ≠ b)
    (hnodup : ((σ b).map Prod.fst).Nodup) :
    append_op σ a b b = σ b
    ∧ (∀ c, c ≠ a → append_op σ a b c = σ c)
    ∧ append_op σ a b a = happend_bins (σ a) (σ b)
    ∧ (∀ a2, a2 ≠ a → a2 ≠ b →
        append_op (append_op σ a b) a2 b a2 = happend_bins (σ a2) (σ b)) := by
  have hframe : ∀ c, c ≠ a → append_op σ a b c = σ c := fun c hc =>
    append_loop_frame a b (σ b) σ c hc
  refine ⟨hframe b (Ne.symm hab), hframe, append_op_receiver σ a b hab hnodup, ?_⟩
  intro a2 h2a h2b
  have hb : append_op σ a b b = σ b := hframe b (Ne.symm hab)
  have ha2 : append_op σ a b a2 = σ a2 := hframe a2 h2a
  have h1 := append_op_receiver (append_op σ a b) a2 b h2b (by rw [hb]; exact hnodup)
  rw [h1, hb, ha2]

/-- C10 witness on a concrete two-object heap. -/
theorem c10_merge_frame_witness :
    ((0 : Nat) ≠ 1 ∧ ((testStore 1).map Prod.fst).Nodup)
    ∧ (append_op testStore 0 1 1 = testStore 1
      ∧ (∀ c, c ≠ 0 → append_op testStore 0 1 c = testStore c)
      ∧ append_op testStore 0 1 0 = happend_bins (testStore 0) (testStore 1)
      ∧ (∀ a2, a2 ≠ 0 → a2 ≠ 1 →
          append_op (append_op testStore 0 1) a2 1 a2
            = happend_bins (testStore a2) (testStore 1))) :=
  ⟨⟨by decide, by decide⟩, c10_merge_frame testStore 0 1 (by decide) (by decide)⟩
